import Mathlib

/-!
Verification of the News-Tracker pipeline (src/tracker.py) against its
natural-language specification.

The Python source is shallowly embedded below.  Conventions used throughout:

- Python dicts holding feed items become the structure NT.Item; keys that a
  given code path never sets are carried with their default values (the empty
  string, or none for the optional published date), matching dict.get with a
  default.
- The external collaborators (HTTP fetch and the RSS / JSON-LD parsers, which
  the spec explicitly treats as external) are modelled as oracles: a function
  from query string to a fetch outcome for the Google-News path, and the
  already-parsed candidate tuples plus href list for the BBC page.  A failed
  fetch or parse is the PResult.err outcome.
- File persistence is modelled by PResult for the read and a Bool success
  flag for each write; the writes are sequenced in program order in main_run.
- Python sets whose iteration order the interpreter does not fix (seen_urls,
  the BBC href set) are modelled as insertion-ordered duplicate-free lists;
  no theorem below depends on more than membership and the length-bounded
  truncation of those collections.
- Python string operations are modelled at the Unicode code-point (Char)
  level: comparisons compare code points exactly as CPython does, and
  str.lower / str.strip are the ASCII-faithful Lean counterparts.
- list.sort(key=..., reverse=True) is a stable descending sort; since a
  stable sort for a total preorder has a unique result, it is embedded as a
  structural insertion sort that places each later element after existing
  equal-key elements.
-/

namespace NT

/-! ## Character and string helpers -/

/-- Python whitespace characters recognised by str.strip and the regex
class backslash-s (ASCII range). -/
def isWs (c : Char) : Bool :=
  c == ' ' || c == '\t' || c == '\n' || c == '\r' || c == '\x0b' || c == '\x0c'

/-- str.strip(): drop whitespace from both ends. -/
def pyStrip (s : String) : String :=
  String.mk (((s.toList.dropWhile isWs).reverse.dropWhile isWs).reverse)

/-- str.lower() (ASCII case folding, which covers every term list constant). -/
def lowerStr (s : String) : String :=
  String.mk (s.toList.map Char.toLower)

/-- Whether the first list is an initial segment of the second. -/
def matchFront : List Char → List Char → Bool
  | [], _ => true
  | _ :: _, [] => false
  | a :: as, b :: bs => a == b && matchFront as bs

/-- Python substring test on char lists: needle occurs somewhere in hay. -/
def hasSubL (needle : List Char) : List Char → Bool
  | [] => matchFront needle []
  | c :: rest => matchFront needle (c :: rest) || hasSubL needle rest

/-- Python substring membership: needle in hay. -/
def hasSub (needle hay : String) : Bool :=
  hasSubL needle.toList hay.toList

/-- str.startswith. -/
def pyStartsWith (s pre : String) : Bool :=
  matchFront pre.toList s.toList

/-- CPython string less-than: lexicographic comparison of code points. -/
def listLtB : List Char → List Char → Bool
  | [], [] => false
  | [], _ :: _ => true
  | _ :: _, [] => false
  | a :: as, b :: bs =>
    if a.toNat < b.toNat then true
    else if b.toNat < a.toNat then false
    else listLtB as bs

/-- CPython string less-than on strings. -/
def strLtB (a b : String) : Bool :=
  listLtB a.toList b.toList

/-- Membership of a string in a list, as Python in on a list or set. -/
def memB (u : String) (l : List String) : Bool :=
  l.any (fun v => v == u)

/-- str.replace of the single character Z by +00:00 (used on BBC dates). -/
def replaceZ (s : String) : String :=
  String.mk (s.toList.foldr
    (fun c acc => if c == 'Z' then '+' :: '0' :: '0' :: ':' :: '0' :: '0' :: acc else c :: acc) [])

/-! ## Dates and the lookback filter -/

/-- A calendar date as the y/m/d triple used by datetime.date. -/
structure Date where
  year : Nat
  month : Nat
  day : Nat
deriving DecidableEq

/-- A UTC instant: a calendar date plus the second of that day.  Comparing
two instants compares the date lexicographically and then the second, which
agrees with datetime comparison for (timezone-aligned) datetimes. -/
structure Timestamp where
  date : Date
  sec : Nat
deriving DecidableEq

/-- Strict calendar order on dates (lexicographic on year, month, day). -/
def Date.ltB (a b : Date) : Bool :=
  a.year < b.year ||
    (a.year == b.year && (a.month < b.month || (a.month == b.month && a.day < b.day)))

/-- dt >= cutoff for dt = midnight of day d: either the cutoff day is
earlier, or it is the same day and the cutoff is exactly midnight. -/
def dtGe (d : Date) (c : Timestamp) : Bool :=
  Date.ltB c.date d || (c.date == d && c.sec == 0)

/-- Numeric value of a digit string. -/
def digitsVal (l : List Char) : Nat :=
  l.foldl (fun n c => n * 10 + (c.toNat - 48)) 0

def allDigits (l : List Char) : Bool :=
  l.all Char.isDigit

def isLeap (y : Nat) : Bool :=
  y % 4 == 0 && (y % 100 != 0 || y % 400 == 0)

def daysInMonth (y m : Nat) : Nat :=
  if m == 2 then (if isLeap y then 29 else 28)
  else if m == 4 || m == 6 || m == 9 || m == 11 then 30
  else 31

/-- Split a char list at every dash (str.split behaviour for one needle). -/
def splitDashAux : List Char → List Char → List (List Char)
  | cur, [] => [cur.reverse]
  | cur, c :: rest =>
    if c == '-' then cur.reverse :: splitDashAux [] rest
    else splitDashAux (c :: cur) rest

def splitDash (l : List Char) : List (List Char) :=
  splitDashAux [] l

/-- datetime.strptime(s, percent-Y dash percent-m dash percent-d) as CPython
implements it: the year is exactly four digits, month and day are one or two
digits in range (per the strptime regular expressions), the whole string
must be consumed, and the datetime constructor then enforces year >= 1 and
the day being valid for the month. -/
def parseYMD (s : String) : Option Date :=
  match splitDash s.toList with
  | [yl, ml, dl] =>
    if allDigits yl && yl.length == 4
        && allDigits ml && decide (1 ≤ ml.length) && decide (ml.length ≤ 2)
        && allDigits dl && decide (1 ≤ dl.length) && decide (dl.length ≤ 2) then
      let y := digitsVal yl
      let m := digitsVal ml
      let d := digitsVal dl
      if 1 ≤ y ∧ 1 ≤ m ∧ m ≤ 12 ∧ 1 ≤ d ∧ d ≤ daysInMonth y m then
        some ⟨y, m, d⟩
      else none
    else none
  | _ => none

/-- within_lookback from tracker.py: a missing or empty published string is
kept, an unparsable one is kept, and a parsed date is kept iff its midnight
is not before the cutoff. -/
def within_lookback (published_iso : Option String) (cutoff : Timestamp) : Bool :=
  match published_iso with
  | none => true
  | some s =>
    if s == "" then true
    else
      match parseYMD s with
      | none => true
      | some d => dtGe d cutoff

/-! ## Items, term lists, signals -/

/-- One feed item record (the dicts built in tracker.py). -/
structure Item where
  title : String := ""
  url : String := ""
  published : Option String := none
  source : String := ""
  source_url : String := ""
  summary : String := ""
  label : String := ""
  found_at : String := ""
deriving DecidableEq

def TOPIC_TERMS : List String :=
  ["lgbt", "lgbtq", "lgbtq+", "lgbtqia", "lgbtqia+",
   "queer",
   "gay", "lesbian", "bisexual",
   "trans", "transgender",
   "non-binary", "non binary", "nonbinary",
   "homophobic", "homophobia",
   "transphobic", "transphobia",
   "biphobic", "biphobia",
   "hate crime", "hate-crime", "hatecrime",
   "sexual orientation", "gender identity",
   "pride"]

/-- has_topic_signal: case-insensitive substring match of any topic term. -/
def has_topic_signal (text : String) : Bool :=
  TOPIC_TERMS.any (fun k => hasSub k (lowerStr text))

def PINKNEWS_DOMAIN : String := "pinknews.co.uk"
def BBC_DOMAIN : String := "www.bbc.co.uk"
def MAX_ITEMS_TOTAL : Nat := 300
def MAX_ITEMS_PER_FEED : Nat := 120

/-! ## strip_html -/

/-- Split a char list at the first close-angle character, if any. -/
def breakGt : List Char → Option (List Char × List Char)
  | [] => none
  | c :: rest =>
    if c == '>' then some ([], rest)
    else
      match breakGt rest with
      | none => none
      | some (b, a) => some (c :: b, a)

/-- The regex sub replacing every tag-like span (an open angle, one or more
non-close-angle characters, a close angle) by one space.  Fuelled by the
input length so the recursion is structural; the fuel is always sufficient
because each step consumes at least one character. -/
def stripTagsFuel : Nat → List Char → List Char
  | 0, l => l
  | _ + 1, [] => []
  | n + 1, c :: rest =>
    if c == '<' then
      match breakGt rest with
      | some (before, after) =>
        if before.isEmpty then c :: stripTagsFuel n rest
        else ' ' :: stripTagsFuel n after
      | none => c :: stripTagsFuel n rest
    else c :: stripTagsFuel n rest

/-- The regex sub collapsing every whitespace run into one space; the flag
records whether the previous character was part of a run. -/
def collapseWsAux : Bool → List Char → List Char
  | _, [] => []
  | prevWs, c :: rest =>
    if isWs c then
      if prevWs then collapseWsAux true rest
      else ' ' :: collapseWsAux true rest
    else c :: collapseWsAux false rest

/-- strip_html from tracker.py: drop tags, collapse whitespace, strip. -/
def strip_html (s : String) : String :=
  pyStrip (String.mk (collapseWsAux false (stripTagsFuel s.toList.length s.toList)))

/-! ## External outcomes -/

/-- Outcome of an external fetch / parse / file read: a value or a failure. -/
inductive PResult (α : Type) where
  | ok (v : α)
  | err
deriving DecidableEq

/-- load_json: every exception while reading or decoding yields the
fallback value. -/
def load_json {α : Type} (r : PResult α) (fallback : α) : α :=
  match r with
  | .ok v => v
  | .err => fallback

/-! ## PinkNews fetch path -/

/-- The three fixed Google-News queries of fetch_pinknews_only. -/
def pinknewsQueries : List String :=
  ["site:pinknews.co.uk (lgbt OR lgbtq OR gay OR lesbian OR bisexual OR trans OR transgender OR queer OR pride OR homophobic OR transphobic OR \"hate crime\")",
   "site:pinknews.co.uk (kent OR canterbury OR maidstone OR medway OR thanet OR swale OR sheerness OR sittingbourne OR rochester OR chatham OR dartford OR gravesend OR ashford OR folkestone OR dover) (lgbt OR lgbtq OR gay OR lesbian OR trans OR transgender OR queer OR pride OR homophobic OR transphobic OR \"hate crime\")",
   "site:pinknews.co.uk (court OR \"crown court\" OR magistrates OR sentenced OR convicted OR charged) (homophobic OR transphobic OR \"hate crime\")"]

/-- The per-item body of the fetch_pinknews_only batch loop: keep items on
the PinkNews domain whose title-plus-summary blob has a topic signal and
which pass the lookback filter, restamping source fields and label. -/
def pinkPush (cutoff : Timestamp) (items : List Item) (it : Item) : List Item :=
  if !(hasSub PINKNEWS_DOMAIN it.url) then items
  else if !(has_topic_signal (it.title ++ " " ++ it.summary)) then items
  else if !(within_lookback it.published cutoff) then items
  else items ++ [{ it with
    source := "PinkNews",
    source_url := "https://www.pinknews.co.uk",
    label := "PinkNews" }]

/-- The query loop of fetch_pinknews_only over an arbitrary query plan.
respond is the external fetch-and-parse collaborator (the URL encoding of
the query into the Google-News RSS URL is part of that transport).  The
returned number counts the queries actually issued; a failed query is
logged and skipped, never fatal. -/
def queryLoop (cutoff : Timestamp) (queries : List String)
    (respond : String → PResult (List Item)) : List Item × Nat :=
  queries.foldl
    (fun st q =>
      match respond q with
      | .err => (st.1, st.2 + 1)
      | .ok batch => ((batch.take MAX_ITEMS_PER_FEED).foldl (pinkPush cutoff) st.1, st.2 + 1))
    ([], 0)

/-- fetch_pinknews_only: the query loop run on the fixed query plan. -/
def fetch_pinknews_only (cutoff : Timestamp)
    (respond : String → PResult (List Item)) : List Item × Nat :=
  queryLoop cutoff pinknewsQueries respond

/-! ## BBC topic fetch path -/

/-- One JSON-LD candidate from parse_bbc_topic_jsonld: url, name and the
first available published date string (each defaulting to empty). -/
structure Cand where
  url : String := ""
  name : String := ""
  datePub : String := ""
deriving DecidableEq

/-- Whether ten characters have the shape digit{4} dash digit{2} dash
digit{2} (the regex fallback pattern of normalise_bbc_date). -/
def shapedDate10 : List Char → Bool
  | [y1, y2, y3, y4, h1, m1, m2, h2, d1, d2] =>
    allDigits [y1, y2, y3, y4, m1, m2, d1, d2] && h1 == '-' && h2 == '-'
  | _ => false

/-- normalise_bbc_date: strip, replace Z by +00:00, then try
datetime.fromisoformat and fall back to a shaped ten-character prefix.
datetime.fromisoformat (Python 3.10 grammar: a padded calendar date,
optionally followed by a time part) succeeds only when the first ten
characters are a shaped date, and then date().isoformat() returns exactly
those ten characters; when it fails, the regex fallback also returns the
ten-character prefix exactly when it is shaped.  Both branches therefore
collapse to: return the ten-character prefix iff it is shaped. -/
def normalise_bbc_date (s : String) : Option String :=
  if s == "" then none
  else
    let t := replaceZ (pyStrip s)
    let p := t.toList.take 10
    if shapedDate10 p then some (String.mk p) else none

/-- The JSON-LD candidate loop of fetch_bbc_topic_only.  The state is the
accumulated items and the function-local seen url list.  Mirrors the code
line by line: the post-append break at MAX_ITEMS_PER_FEED is the leading
length guard; the url is recorded as seen before the domain and date
checks; the has_topic_signal test on the lowered title is computed and
discarded (the Python body under it is pass). -/
def bbcPush (cutoff : Timestamp) (st : List Item × List String) (c : Cand) :
    List Item × List String :=
  if MAX_ITEMS_PER_FEED ≤ st.1.length then st
  else if c.url == "" || memB c.url st.2 then st
  else
    let seen := st.2 ++ [c.url]
    if !(pyStartsWith c.url "http") then (st.1, seen)
    else if !(hasSub (BBC_DOMAIN ++ "/news/") c.url) then (st.1, seen)
    else
      let published := normalise_bbc_date c.datePub
      if !(within_lookback published cutoff) then (st.1, seen)
      else
        let title := if c.name == "" then "BBC News" else strip_html c.name
        let _ := has_topic_signal (lowerStr title)
        (st.1 ++ [{ title := title, url := c.url, published := published,
                    source := "BBC News", source_url := "https://www.bbc.co.uk/news",
                    summary := "", label := "BBC topic" }], seen)

/-- The href fallback loop of fetch_bbc_topic_only (only reached when the
JSON-LD loop produced nothing); the post-append break at 80 is the leading
length guard. -/
def bbcFallbackStep (st : List Item × List String) (h : String) :
    List Item × List String :=
  if 80 ≤ st.1.length then st
  else if pyStartsWith h "/news/topics/" then st
  else
    let url := "https://www.bbc.co.uk" ++ h
    if memB url st.2 then st
    else (st.1 ++ [{ title := "BBC News", url := url, published := none,
                     source := "BBC News", source_url := "https://www.bbc.co.uk/news",
                     summary := "", label := "BBC topic" }], st.2 ++ [url])

/-- fetch_bbc_topic_only.  The fetch of the topic page and the two parses
of its html (JSON-LD candidates, href set) are the external collaborator;
a fetch failure yields no items.  The href set iteration order is carried
as the given list order. -/
def fetch_bbc_topic_only (cutoff : Timestamp)
    (fetched : PResult (List Cand × List String)) : List Item :=
  match fetched with
  | .err => []
  | .ok (cands, hrefs) =>
    let r := cands.foldl (bbcPush cutoff) ([], [])
    if !r.1.isEmpty then r.1
    else ((hrefs.take 200).foldl bbcFallbackStep ([], r.2)).1

/-! ## dedup_sort -/

def keyMem (k : String) (d : List (String × Item)) : Bool :=
  d.any (fun p => p.1 == k)

/-- Python dict assignment by_url[u] = it: an existing key keeps its
position and takes the new value, a new key is appended. -/
def updateAssoc (d : List (String × Item)) (k : String) (v : Item) :
    List (String × Item) :=
  if keyMem k d then d.map (fun p => if p.1 == k then (k, v) else p)
  else d ++ [(k, v)]

/-- The dict-building loop of dedup_sort: items with a whitespace-only url
are dropped, the rest keyed by the stripped url, last assignment winning. -/
def dictInsertAll (d : List (String × Item)) : List Item → List (String × Item)
  | [] => d
  | it :: rest =>
    let u := pyStrip it.url
    if u == "" then dictInsertAll d rest
    else dictInsertAll (updateAssoc d u it) rest

/-- The sort key of dedup_sort: x.get("published") or "0000-00-00", where
Python or replaces both a missing and an empty published string by the
sentinel. -/
def sortKey (it : Item) : String :=
  match it.published with
  | none => "0000-00-00"
  | some s => if s == "" then "0000-00-00" else s

/-- Insert one later-processed element into a descending-sorted list,
after every element of greater or equal key (the placement a stable
descending sort gives later elements). -/
def insertDesc (x : Item) : List Item → List Item
  | [] => [x]
  | b :: bs => if strLtB (sortKey b) (sortKey x) then x :: b :: bs else b :: insertDesc x bs

/-- list.sort(key=sortKey, reverse=True): stable descending sort by key.
A stable sort for a total preorder has a unique result, so this insertion
sort computes exactly the CPython sort. -/
def sortDesc (l : List Item) : List Item :=
  l.foldl (fun acc x => insertDesc x acc) []

/-- dedup_sort from tracker.py: dict by stripped url (last wins), the dict
values in key-insertion order, sorted by published descending with the
epoch sentinel for missing dates, truncated to MAX_ITEMS_TOTAL. -/
def dedup_sort (items : List Item) : List Item :=
  (sortDesc ((dictInsertAll [] items).map (fun p => p.2))).take MAX_ITEMS_TOTAL

/-! ## main -/

/-- The per-item domain gate in main: keep PinkNews-domain urls and urls
starting with the BBC news prefix. -/
def passes_domain (url : String) : Bool :=
  hasSub PINKNEWS_DOMAIN url || pyStartsWith url "https://www.bbc.co.uk/news/"

/-- The cleaning loop body of main: drop empty urls, drop foreign domains,
drop urls already seen, otherwise stamp found_at, accumulate, and mark the
url seen at once. -/
def cleanStep (now : String) (st : List Item × List String) (it : Item) :
    List Item × List String :=
  if it.url == "" then st
  else if !(passes_domain it.url) then st
  else if memB it.url st.2 then st
  else (st.1 ++ [{ it with found_at := now }], st.2 ++ [it.url])

/-- The state-carrying part of main after the fetches: clean the collected
items against the loaded seen set, dedup-sort the survivors, and bound the
persisted seen list at 100000 entries.  Returns (output feed, persisted
seen urls). -/
def runMain (state_seen : List String) (items : List Item) (now : String) :
    List Item × List String :=
  let r := items.foldl (cleanStep now) ([], state_seen)
  (dedup_sort r.1, r.2.take 100000)

/-- main itself: load the state (any read failure silently becomes the
empty-state fallback), fetch both sources, clean and dedup-sort, then save
the state and the output in that order; a failed write raises and aborts
the run.  The ok value is the pair of files written. -/
def main_run (stateRead : PResult (List String)) (stateWriteOk outWriteOk : Bool)
    (cutoff : Timestamp) (respond : String → PResult (List Item))
    (bbcFetched : PResult (List Cand × List String)) (now : String) :
    Except Unit (List Item × List String) :=
  let seen0 := load_json stateRead []
  let items := (fetch_pinknews_only cutoff respond).1 ++ fetch_bbc_topic_only cutoff bbcFetched
  let r := runMain seen0 items now
  if stateWriteOk then
    (if outWriteOk then Except.ok r else Except.error ())
  else Except.error ()

end NT


namespace NT

/-! ## Basic lemmas about the helpers -/

theorem memB_iff {u : String} {l : List String} : memB u l = true ↔ u ∈ l := by
  simp [memB, List.any_eq_true, beq_iff_eq]

theorem char_eq_of_toNat_eq {a b : Char} (h : a.toNat = b.toNat) : a = b :=
  Char.eq_of_val_eq (UInt32.ext h)

theorem listLtB_irrefl (l : List Char) : listLtB l l = false := by
  induction l with
  | nil => rfl
  | cons a as ih => simp [listLtB, ih]

theorem listLtB_trans {a b c : List Char} (h1 : listLtB a b = true)
    (h2 : listLtB b c = true) : listLtB a c = true := by
  induction a generalizing b c with
  | nil =>
    cases b with
    | nil => simp [listLtB] at h1
    | cons x xs =>
      cases c with
      | nil => simp [listLtB] at h2
      | cons y ys => simp [listLtB]
  | cons x xs ih =>
    cases b with
    | nil => simp [listLtB] at h1
    | cons y ys =>
      cases c with
      | nil => simp [listLtB] at h2
      | cons z zs =>
        simp only [listLtB] at h1 h2 ⊢
        split at h1
        · -- x < y
          split at h2
          · -- y < z
            have : x.toNat < z.toNat := by omega
            simp [this]
          · split at h2
            · simp at h2
            · -- y = z
              have : x.toNat < z.toNat := by omega
              simp [this]
        · split at h1
          · simp at h1
          · -- x = y
            split at h2
            · -- y < z
              have : x.toNat < z.toNat := by omega
              simp [this]
            · split at h2
              · simp at h2
              · -- y = z
                have hxz : ¬ x.toNat < z.toNat := by omega
                have hzx : ¬ z.toNat < x.toNat := by omega
                simp [hxz, hzx]
                exact ih h1 h2

theorem listLtB_asymm {a b : List Char} (h : listLtB a b = true) : listLtB b a = false := by
  induction a generalizing b with
  | nil =>
    cases b with
    | nil => simp [listLtB] at h
    | cons y ys => simp [listLtB]
  | cons x xs ih =>
    cases b with
    | nil => simp [listLtB] at h
    | cons y ys =>
      simp only [listLtB] at h ⊢
      split at h
      · -- x < y
        have h1 : ¬ y.toNat < x.toNat := by omega
        have h2 : x.toNat < y.toNat := by omega
        simp [h1, h2]
      · split at h
        · simp at h
        · -- x = y
          have h1 : ¬ y.toNat < x.toNat := by omega
          have h2 : ¬ x.toNat < y.toNat := by omega
          simp [h1, h2]
          exact ih h

theorem strLtB_asymm {a b : String} (h : strLtB a b = true) : strLtB b a = false :=
  listLtB_asymm h

theorem strLtB_trans {a b c : String} (h1 : strLtB a b = true)
    (h2 : strLtB b c = true) : strLtB a c = true :=
  listLtB_trans h1 h2

/-! ## The stable descending sort -/

theorem mem_insertDesc {y x : Item} {l : List Item} :
    y ∈ insertDesc x l ↔ y = x ∨ y ∈ l := by
  induction l with
  | nil => simp [insertDesc]
  | cons b bs ih =>
    simp only [insertDesc]
    split
    · simp
    · simp [ih]
      tauto

theorem insertDesc_perm (x : Item) (l : List Item) :
    (insertDesc x l).Perm (x :: l) := by
  induction l with
  | nil => simp [insertDesc]
  | cons b bs ih =>
    simp only [insertDesc]
    split
    · exact List.Perm.refl _
    · exact (ih.cons b).trans (List.Perm.swap x b bs)

theorem sortDesc_perm (l : List Item) : (sortDesc l).Perm l := by
  have key : ∀ (l acc : List Item),
      (l.foldl (fun acc x => insertDesc x acc) acc).Perm (acc ++ l) := by
    intro l
    induction l with
    | nil => intro acc; simp
    | cons x xs ih =>
      intro acc
      have h1 : (xs.foldl (fun acc x => insertDesc x acc) (insertDesc x acc)).Perm
          (insertDesc x acc ++ xs) := ih _
      have h2 : (insertDesc x acc ++ xs).Perm ((x :: acc) ++ xs) :=
        (insertDesc_perm x acc).append_right xs
      have h3 : ((x :: acc) ++ xs).Perm (acc ++ x :: xs) := by
        simpa using List.perm_middle.symm
      exact (h1.trans h2).trans h3
  simpa using key l []

theorem pairwise_insertDesc {x : Item} {l : List Item}
    (h : l.Pairwise (fun a b => strLtB (sortKey a) (sortKey b) = false)) :
    (insertDesc x l).Pairwise (fun a b => strLtB (sortKey a) (sortKey b) = false) := by
  induction l with
  | nil => simp [insertDesc]
  | cons b bs ih =>
    rw [List.pairwise_cons] at h
    obtain ⟨hb, hbs⟩ := h
    simp only [insertDesc]
    split
    · rename_i hlt
      rw [List.pairwise_cons]
      refine ⟨?_, List.pairwise_cons.mpr ⟨hb, hbs⟩⟩
      intro c hc
      rcases List.mem_cons.mp hc with rfl | hc
      · exact strLtB_asymm hlt
      · cases hx : strLtB (sortKey x) (sortKey c) with
        | false => rfl
        | true =>
          have := strLtB_trans hlt hx
          rw [hb c hc] at this
          exact absurd this (by simp)
    · rename_i hnlt
      have hnlt' : strLtB (sortKey b) (sortKey x) = false :=
        Bool.eq_false_iff.mpr hnlt
      rw [List.pairwise_cons]
      refine ⟨?_, ih hbs⟩
      intro c hc
      rcases mem_insertDesc.mp hc with rfl | hc
      · exact hnlt'
      · exact hb c hc

theorem sortDesc_pairwise (l : List Item) :
    (sortDesc l).Pairwise (fun a b => strLtB (sortKey a) (sortKey b) = false) := by
  have key : ∀ (l acc : List Item),
      acc.Pairwise (fun a b => strLtB (sortKey a) (sortKey b) = false) →
      (l.foldl (fun acc x => insertDesc x acc) acc).Pairwise
        (fun a b => strLtB (sortKey a) (sortKey b) = false) := by
    intro l
    induction l with
    | nil => intro acc h; simpa using h
    | cons x xs ih =>
      intro acc h
      exact ih _ (pairwise_insertDesc h)
  exact key l [] (by simp)

/-! ## The url-keyed dict of dedup_sort -/

theorem keyMem_iff {k : String} {d : List (String × Item)} :
    keyMem k d = true ↔ ∃ p ∈ d, p.1 = k := by
  simp [keyMem, List.any_eq_true, beq_iff_eq]

theorem mem_updateAssoc {p : String × Item} {d : List (String × Item)}
    {k : String} {v : Item} (h : p ∈ updateAssoc d k v) : p ∈ d ∨ p = (k, v) := by
  unfold updateAssoc at h
  split at h
  · rcases List.mem_map.mp h with ⟨q, hq, hfq⟩
    by_cases hk : q.1 == k
    · right; rw [if_pos hk] at hfq; exact hfq.symm
    · left; rw [if_neg hk] at hfq; exact hfq ▸ hq
  · rcases List.mem_append.mp h with h | h
    · exact Or.inl h
    · right; simpa using h

theorem keys_updateAssoc (d : List (String × Item)) (k : String) (v : Item) :
    (updateAssoc d k v).map (fun p => p.1) =
      if keyMem k d then d.map (fun p => p.1) else d.map (fun p => p.1) ++ [k] := by
  unfold updateAssoc
  split
  · rw [List.map_map]
    congr 1
    funext p
    by_cases hk : p.1 == k
    · simp only [Function.comp, if_pos hk]
      exact (beq_iff_eq.mp hk).symm
    · simp only [Function.comp, if_neg hk]
  · simp

theorem mem_dictInsertAll {p : String × Item} {l : List Item}
    {d : List (String × Item)} (h : p ∈ dictInsertAll d l) :
    p ∈ d ∨ (p.2 ∈ l ∧ p.1 = pyStrip p.2.url ∧ p.1 ≠ "") := by
  induction l generalizing d with
  | nil => exact Or.inl h
  | cons it rest ih =>
    simp only [dictInsertAll] at h
    split at h
    · rcases ih h with h | ⟨h1, h2, h3⟩
      · exact Or.inl h
      · exact Or.inr ⟨List.mem_cons_of_mem _ h1, h2, h3⟩
    · rename_i hne
      rcases ih h with h | ⟨h1, h2, h3⟩
      · rcases mem_updateAssoc h with h | h
        · exact Or.inl h
        · right
          refine ⟨?_, ?_, ?_⟩
          · rw [h]; exact List.mem_cons_self _ _
          · rw [h]
          · rw [h]
            simpa using hne
      · exact Or.inr ⟨List.mem_cons_of_mem _ h1, h2, h3⟩

theorem keys_nodup_dictInsertAll {l : List Item} {d : List (String × Item)}
    (h : (d.map (fun p => p.1)).Nodup) :
    ((dictInsertAll d l).map (fun p => p.1)).Nodup := by
  induction l generalizing d with
  | nil => exact h
  | cons it rest ih =>
    simp only [dictInsertAll]
    split
    · exact ih h
    · apply ih
      rw [keys_updateAssoc]
      split
      · exact h
      · rename_i hnm
        rw [List.nodup_append]
        refine ⟨h, List.nodup_singleton _, ?_⟩
        intro a ha hb
        rcases List.mem_map.mp ha with ⟨q, hq, rfl⟩
        have : keyMem (pyStrip it.url) d = true :=
          keyMem_iff.mpr ⟨q, hq, by simpa using hb⟩
        simp [this] at hnm

theorem find?_none_of_not_keyMem {d : List (String × Item)} {k : String}
    (h : keyMem k d = false) : d.find? (fun p => p.1 == k) = none := by
  induction d with
  | nil => rfl
  | cons q rest ih =>
    simp only [keyMem, List.any_cons, Bool.or_eq_false_iff] at h
    rw [List.find?_cons_of_neg _ (by simp [h.1])]
    exact ih (by simp [keyMem, h.2])

theorem find?_updateAssoc_same (d : List (String × Item)) (k : String) (v : Item) :
    (updateAssoc d k v).find? (fun p => p.1 == k) = some (k, v) := by
  unfold updateAssoc
  split
  · rename_i hmem
    induction d with
    | nil => simp [keyMem] at hmem
    | cons q rest ih =>
      simp only [keyMem, List.any_cons, Bool.or_eq_true_iff] at hmem
      rw [List.map_cons]
      by_cases hq : (q.1 == k) = true
      · rw [if_pos hq]
        exact List.find?_cons_of_pos _ (by simp)
      · rw [if_neg hq]
        rw [List.find?_cons_of_neg _ (by simpa using hq)]
        apply ih
        rcases hmem with h | h
        · exact absurd h hq
        · exact h
  · rename_i hnm
    rw [List.find?_append, find?_none_of_not_keyMem (Bool.eq_false_iff.mpr hnm)]
    simp

theorem find?_updateAssoc_ne {d : List (String × Item)} {k k' : String} {v : Item}
    (h : k' ≠ k) :
    (updateAssoc d k v).find? (fun p => p.1 == k') = d.find? (fun p => p.1 == k') := by
  unfold updateAssoc
  split
  · rename_i hmem
    clear hmem
    induction d with
    | nil => rfl
    | cons q rest ih =>
      rw [List.map_cons]
      by_cases hq : (q.1 == k) = true
      · have h1 : (((k, v).1 : String) == k') = false := by simpa using (Ne.symm h)
        have h2 : ((q.1 : String) == k') = false := by
          have hqe : q.1 = k := beq_iff_eq.mp hq
          rw [hqe]
          simpa using (Ne.symm h)
        rw [if_pos hq]
        simp only [List.find?_cons, h1, h2]
        exact ih
      · rw [if_neg hq, List.find?_cons, List.find?_cons]
        cases hq' : ((q.1 : String) == k') with
        | true => rfl
        | false => exact ih
  · rw [List.find?_append]
    have h1 : List.find? (fun p => p.1 == k') [(k, v)] = none := by
      simp [Ne.symm h]
    rw [h1]
    simp

theorem find?_of_mem_nodupKeys {d : List (String × Item)} {k : String} {v : Item}
    (hn : (d.map (fun p => p.1)).Nodup) (hm : (k, v) ∈ d) :
    d.find? (fun p => p.1 == k) = some (k, v) := by
  induction d with
  | nil => simp at hm
  | cons q rest ih =>
    rw [List.map_cons, List.nodup_cons] at hn
    rcases List.mem_cons.mp hm with rfl | hm
    · exact List.find?_cons_of_pos _ (by simp)
    · have hqk : ((q.1 : String) == k) = false := by
        rw [beq_eq_false_iff_ne]
        intro hq
        exact hn.1 (List.mem_map.mpr ⟨(k, v), hm, by simpa using hq.symm⟩)
      rw [List.find?_cons_of_neg _ (by simp [hqk])]
      exact ih hn.2 hm

theorem dictInsertAll_find_last (l : List Item) (d : List (String × Item))
    (u : String) (hu : u ≠ "") :
    (dictInsertAll d l).find? (fun p => p.1 == u) =
      match (l.filter (fun it => pyStrip it.url == u)).getLast? with
      | some it => some (u, it)
      | none => d.find? (fun p => p.1 == u) := by
  induction l generalizing d with
  | nil => simp [dictInsertAll]
  | cons it rest ih =>
    simp only [dictInsertAll, List.filter_cons]
    by_cases hstrip : (pyStrip it.url == "") = true
    · have hne : (pyStrip it.url == u) = false := by
        rw [beq_iff_eq.mp hstrip]
        simpa using (Ne.symm hu)
      rw [if_pos hstrip, hne]
      simp only [if_neg (by simp : ¬ (false = true))]
      exact ih d
    · rw [if_neg hstrip]
      by_cases hc : (pyStrip it.url == u) = true
      · have hequ : pyStrip it.url = u := beq_iff_eq.mp hc
      
        rw [hc, if_pos rfl, hequ, ih (updateAssoc d u it)]
        cases hF : rest.filter (fun x => pyStrip x.url == u) with
        | nil => simp [find?_updateAssoc_same]
        | cons f fs =>
          obtain ⟨x, hx⟩ : ∃ x, (f :: fs).getLast? = some x := by
            cases hL : (f :: fs).getLast? with
            | some x => exact ⟨x, rfl⟩
            | none => simp [List.getLast?_eq_none_iff] at hL
          simp [hx]
      · have hcf : (pyStrip it.url == u) = false := Bool.eq_false_iff.mpr hc
        have hne' : u ≠ pyStrip it.url := by
          intro he
          rw [he] at hcf
          simp at hcf
        rw [hcf, if_neg (by simp : ¬ (false = true)), ih (updateAssoc d (pyStrip it.url) it)]
        cases hF : rest.filter (fun x => pyStrip x.url == u) with
        | nil => simp [find?_updateAssoc_ne hne']
        | cons f fs =>
          obtain ⟨x, hx⟩ : ∃ x, (f :: fs).getLast? = some x := by
            cases hL : (f :: fs).getLast? with
            | some x => exact ⟨x, rfl⟩
            | none => simp [List.getLast?_eq_none_iff] at hL
          simp [hx]

/-! ## Facts about dedup_sort -/

theorem mem_values_dict {it : Item} {items : List Item}
    (h : it ∈ (dictInsertAll [] items).map (fun p => p.2)) :
    (pyStrip it.url, it) ∈ dictInsertAll [] items ∧ it ∈ items ∧ pyStrip it.url ≠ "" := by
  rcases List.mem_map.mp h with ⟨p, hp, hpe⟩
  rcases mem_dictInsertAll hp with h0 | ⟨h1, h2, h3⟩
  · simp at h0
  · have hpeq : p = (pyStrip it.url, it) := by
      have : p = (p.1, p.2) := rfl
      rw [this, hpe] at hp ⊢
      rw [hpe] at h2
      rw [h2]
    rw [hpeq] at hp
    rw [hpe] at h1 h2
    exact ⟨hp, h1, h2 ▸ h3⟩

theorem mem_sortDesc_values {it : Item} {items : List Item}
    (h : it ∈ sortDesc ((dictInsertAll [] items).map (fun p => p.2))) :
    it ∈ (dictInsertAll [] items).map (fun p => p.2) :=
  (sortDesc_perm _).mem_iff.mp h

theorem mem_dedup_sort {it : Item} {items : List Item}
    (h : it ∈ dedup_sort items) : it ∈ items := by
  unfold dedup_sort at h
  have h1 := (List.take_sublist _ _).subset h
  exact (mem_values_dict (mem_sortDesc_values h1)).2.1

theorem dedup_sort_entry {it : Item} {items : List Item}
    (h : it ∈ dedup_sort items) :
    pyStrip it.url ≠ "" ∧
      (items.filter (fun x => pyStrip x.url == pyStrip it.url)).getLast? = some it := by
  unfold dedup_sort at h
  have h1 := (List.take_sublist _ _).subset h
  obtain ⟨hmem, _, hne⟩ := mem_values_dict (mem_sortDesc_values h1)
  refine ⟨hne, ?_⟩
  have hnodup : ((dictInsertAll ([] : List (String × Item)) items).map (fun p => p.1)).Nodup :=
    keys_nodup_dictInsertAll (by simp)
  have hfind := find?_of_mem_nodupKeys hnodup hmem
  rw [dictInsertAll_find_last items [] (pyStrip it.url) hne] at hfind
  cases hF : (items.filter (fun x => pyStrip x.url == pyStrip it.url)).getLast? with
  | some x =>
    rw [hF] at hfind
    simp at hfind
    rw [hfind]
  | none =>
    rw [hF] at hfind
    simp at hfind

theorem dedup_sort_urls_nodup (items : List Item) :
    ((dedup_sort items).map (fun x => x.url)).Nodup := by
  have hnodup : ((dictInsertAll ([] : List (String × Item)) items).map (fun p => p.1)).Nodup :=
    keys_nodup_dictInsertAll (by simp)
  have hpw1 : (dictInsertAll ([] : List (String × Item)) items).Pairwise
      (fun p q => p.1 ≠ q.1) := List.pairwise_map.mp hnodup
  have hpw2 : (dictInsertAll ([] : List (String × Item)) items).Pairwise
      (fun p q => p.2.url ≠ q.2.url) := by
    refine hpw1.imp_of_mem ?_
    intro p q hp hq hne heq
    apply hne
    rcases mem_dictInsertAll hp with h0 | ⟨_, hp2, _⟩
    · simp at h0
    rcases mem_dictInsertAll hq with h0 | ⟨_, hq2, _⟩
    · simp at h0
    rw [hp2, hq2, heq]
  have hpw3 : ((dictInsertAll ([] : List (String × Item)) items).map (fun p => p.2)).Pairwise
      (fun a b => a.url ≠ b.url) := List.pairwise_map.mpr hpw2
  have hpw4 : (sortDesc ((dictInsertAll ([] : List (String × Item)) items).map
      (fun p => p.2))).Pairwise (fun a b => a.url ≠ b.url) := by
    refine ((sortDesc_perm _).pairwise_iff ?_).mpr hpw3
    intro a b hab
    exact (hab ∘ Eq.symm)
  have hpw5 : (dedup_sort items).Pairwise (fun a b => a.url ≠ b.url) :=
    List.Pairwise.sublist (List.take_sublist _ _) hpw4
  exact List.pairwise_map.mpr hpw5

/-! ## Claim C4 -/

/-- C4: for every input list, the output of dedup_sort contains at most one
entry per URL, and when input items share the same (stripped) URL the entry
retained in the output is the later-processed (last) one. -/
theorem C4_dedup_last_wins (items : List Item) :
    ((dedup_sort items).map (fun x => x.url)).Nodup ∧
      ∀ it ∈ dedup_sort items,
        (items.filter (fun x => pyStrip x.url == pyStrip it.url)).getLast? = some it :=
  ⟨dedup_sort_urls_nodup items, fun _ h => (dedup_sort_entry h).2⟩

/-- Witness for C4: two items with the same url and different summaries;
the output retains exactly the later one. -/
theorem C4_dedup_last_wins_witness :
    (([⟨"a", "https://www.pinknews.co.uk/x", none, "", "", "summary one", "", ""⟩,
       ⟨"b", "https://www.pinknews.co.uk/x", none, "", "", "summary two", "", ""⟩] : List Item).filter
        (fun x => pyStrip x.url ==
          pyStrip (⟨"b", "https://www.pinknews.co.uk/x", none, "", "", "summary two", "", ""⟩ : Item).url)).getLast?
      = some ⟨"b", "https://www.pinknews.co.uk/x", none, "", "", "summary two", "", ""⟩ :=
  (C4_dedup_last_wins
      [⟨"a", "https://www.pinknews.co.uk/x", none, "", "", "summary one", "", ""⟩,
       ⟨"b", "https://www.pinknews.co.uk/x", none, "", "", "summary two", "", ""⟩]).2
    ⟨"b", "https://www.pinknews.co.uk/x", none, "", "", "summary two", "", ""⟩
    (by decide)

/-! ## The cleaning loop of main -/

theorem foldl_clean_inv {P : List Item × List String → Prop} (now : String)
    (items : List Item)
    (hstep : ∀ st it, it ∈ items → P st → P (cleanStep now st it)) :
    ∀ st, P st → P (items.foldl (cleanStep now) st) := by
  induction items with
  | nil => intro st h; exact h
  | cons x xs ih =>
    intro st h
    exact ih (fun st it hm => hstep st it (List.mem_cons_of_mem _ hm)) _
      (hstep st x (List.mem_cons_self _ _) h)

theorem cleanStep_seen_mono {now : String} {st : List Item × List String}
    {it : Item} {u : String} (h : u ∈ st.2) : u ∈ (cleanStep now st it).2 := by
  unfold cleanStep
  split_ifs <;> simp [h]

theorem clean_seen_mono (now : String) (items : List Item)
    (st : List Item × List String) {u : String} (h : u ∈ st.2) :
    u ∈ (items.foldl (cleanStep now) st).2 := by
  induction items generalizing st with
  | nil => exact h
  | cons x xs ih => exact ih _ (cleanStep_seen_mono h)

theorem clean_coverage (now : String) {it : Item}
    (hne : it.url ≠ "") (hd : passes_domain it.url = true) :
    ∀ (items : List Item), it ∈ items →
      ∀ st, it.url ∈ (items.foldl (cleanStep now) st).2 := by
  intro items
  induction items with
  | nil => intro hm; simp at hm
  | cons x xs ih =>
    intro hm st
    rw [List.foldl_cons]
    rcases List.mem_cons.mp hm with rfl | hm
    · apply clean_seen_mono
      unfold cleanStep
      split_ifs with h1 h2 h3
      · exact absurd (beq_iff_eq.mp h1) hne
      · simp [hd] at h2
      · exact memB_iff.mp h3
      · simp
    · exact ih hm _

theorem clean_no_new (now : String) (items : List Item) (st : List Item × List String)
    (h : ∀ it ∈ items, it.url = "" ∨ passes_domain it.url = false ∨ memB it.url st.2 = true) :
    items.foldl (cleanStep now) st = st := by
  induction items with
  | nil => rfl
  | cons x xs ih =>
    have hx : cleanStep now st x = st := by
      unfold cleanStep
      split_ifs with g1 g2 g3
      · rfl
      · rfl
      · rfl
      · exfalso
        rcases h x (List.mem_cons_self _ _) with h1 | h1 | h1
        · exact g1 (beq_iff_eq.mpr h1)
        · simp [h1] at g2
        · exact g3 h1
    rw [List.foldl_cons, hx]
    exact ih (fun it hm => h it (List.mem_cons_of_mem _ hm))

theorem clean_seen_length (now : String) (items : List Item)
    (st : List Item × List String) :
    (items.foldl (cleanStep now) st).2.length ≤ st.2.length + items.length := by
  induction items generalizing st with
  | nil => simp
  | cons x xs ih =>
    rw [List.foldl_cons]
    have hstep : (cleanStep now st x).2.length ≤ st.2.length + 1 := by
      unfold cleanStep
      split_ifs <;> simp
    calc (xs.foldl (cleanStep now) (cleanStep now st x)).2.length
        ≤ (cleanStep now st x).2.length + xs.length := ih _
      _ ≤ st.2.length + 1 + xs.length := by omega
      _ = st.2.length + (x :: xs).length := by simp [List.length_cons]; omega

/-! ## Claim C1 -/

/-- C1: a URL present in the seen state loaded at run start is never
re-emitted: no item of the run's output feed carries it. -/
theorem C1_seen_state_suppresses (S : List String) (items : List Item)
    (now u : String) (hu : u ∈ S) :
    ∀ it ∈ (runMain S items now).1, it.url ≠ u := by
  intro it hmem
  have hclean : it ∈ (items.foldl (cleanStep now) ([], S)).1 :=
    mem_dedup_sort hmem
  have hinv : u ∈ (items.foldl (cleanStep now) ([], S)).2 ∧
      ∀ x ∈ (items.foldl (cleanStep now) ([], S)).1, x.url ≠ u := by
    refine @foldl_clean_inv
      (fun st => u ∈ st.2 ∧ ∀ x ∈ st.1, x.url ≠ u)
      now items ?_ ([], S) ⟨hu, by simp⟩
    intro st x _ hP
    obtain ⟨hseen, hacc⟩ := hP
    unfold cleanStep
    split_ifs with g1 g2 g3
    · exact ⟨hseen, hacc⟩
    · exact ⟨hseen, hacc⟩
    · exact ⟨hseen, hacc⟩
    · refine ⟨by simp [hseen], ?_⟩
      intro y hy
      rcases List.mem_append.mp hy with hy | hy
      · exact hacc y hy
      · have : y = { x with found_at := now } := by simpa using hy
        rw [this]
        intro he
        apply g3
        apply memB_iff.mpr
        have hxu : x.url = u := he
        rw [hxu]
        exact hseen
  exact hinv.2 it hclean

/-- Witness for C1: with one seen URL and two incoming items, the sole
output item does not carry the seen URL. -/
theorem C1_seen_state_suppresses_witness :
    (⟨"b", "https://www.pinknews.co.uk/b", none, "", "", "", "", "t"⟩ : Item).url ≠
      "https://www.pinknews.co.uk/a" :=
  C1_seen_state_suppresses ["https://www.pinknews.co.uk/a"]
    [⟨"a", "https://www.pinknews.co.uk/a", none, "", "", "", "", ""⟩,
     ⟨"b", "https://www.pinknews.co.uk/b", none, "", "", "", "", ""⟩] "t"
    "https://www.pinknews.co.uk/a" (by decide)
    ⟨"b", "https://www.pinknews.co.uk/b", none, "", "", "", "", "t"⟩ (by decide)

/-! ## Claim C10 -/

/-- C10: every output item has a non-empty URL that contains the PinkNews
domain or starts with the BBC news prefix; all other items are dropped by
the cleaning loop before accumulation. -/
theorem C10_output_domains (S : List String) (items : List Item) (now : String) :
    ∀ it ∈ (runMain S items now).1,
      it.url ≠ "" ∧
        (hasSub PINKNEWS_DOMAIN it.url = true ∨
          pyStartsWith it.url "https://www.bbc.co.uk/news/" = true) := by
  intro it hmem
  have hclean : it ∈ (items.foldl (cleanStep now) ([], S)).1 :=
    mem_dedup_sort hmem
  have hinv : ∀ x ∈ (items.foldl (cleanStep now) ([], S)).1,
      x.url ≠ "" ∧ passes_domain x.url = true := by
    refine @foldl_clean_inv
      (fun st => ∀ x ∈ st.1, x.url ≠ "" ∧ passes_domain x.url = true)
      now items ?_ ([], S) (by simp)
    intro st x _ hacc
    unfold cleanStep
    split_ifs with g1 g2 g3
    · exact hacc
    · exact hacc
    · exact hacc
    · intro y hy
      rcases List.mem_append.mp hy with hy | hy
      · exact hacc y hy
      · have hye : y = { x with found_at := now } := by simpa using hy
        rw [hye]
        refine ⟨by simpa using g1, ?_⟩
        simpa using g2
  obtain ⟨h1, h2⟩ := hinv it hclean
  refine ⟨h1, ?_⟩
  unfold passes_domain at h2
  rcases Bool.or_eq_true_iff.mp h2 with h | h
  · exact Or.inl h
  · exact Or.inr h

/-- Witness for C10: with a mixed batch containing an off-domain item, the
claim instance holds at the item the run actually emits. -/
theorem C10_output_domains_witness :
    (⟨"a", "https://www.pinknews.co.uk/a", none, "", "", "", "", "t"⟩ : Item).url ≠ "" ∧
      (hasSub PINKNEWS_DOMAIN
          (⟨"a", "https://www.pinknews.co.uk/a", none, "", "", "", "", "t"⟩ : Item).url = true ∨
        pyStartsWith
          (⟨"a", "https://www.pinknews.co.uk/a", none, "", "", "", "", "t"⟩ : Item).url
          "https://www.bbc.co.uk/news/" = true) :=
  C10_output_domains []
    [⟨"a", "https://www.pinknews.co.uk/a", none, "", "", "", "", ""⟩,
     ⟨"c", "https://example.com/c", none, "", "", "", "", ""⟩] "t"
    ⟨"a", "https://www.pinknews.co.uk/a", none, "", "", "", "", "t"⟩ (by decide)

/-! ## Claim C3 (corrected) -/

/-- Counterexample to C3 as stated: with an unchanged upstream item list
and no time-window expiry, the second run admits zero items, but the
persisted output feed after the second run is the empty list, which is not
equal to the non-empty output feed of the first run.  The item list stands
for the (deterministic) fetch result of the unchanged upstream feed. -/
theorem C3_output_not_stable_counterexample :
    (runMain
        (runMain [] [⟨"Pride event", "https://www.pinknews.co.uk/a",
          some "2024-01-01", "PinkNews", "", "", "PinkNews", ""⟩] "t1").2
        [⟨"Pride event", "https://www.pinknews.co.uk/a",
          some "2024-01-01", "PinkNews", "", "", "PinkNews", ""⟩] "t2").1 = [] ∧
      (runMain [] [⟨"Pride event", "https://www.pinknews.co.uk/a",
          some "2024-01-01", "PinkNews", "", "", "PinkNews", ""⟩] "t1").1 ≠ [] := by
  constructor
  · decide
  · decide

/-- C3 amended: a second run over the same item list admits zero new items
(the persisted seen state is unchanged), and the output feed file written
by the second run is empty rather than equal to the first run's output;
the bound assumes the seen list was not truncated at the 100000 cap. -/
theorem C3_second_run_empty (S : List String) (items : List Item)
    (now1 now2 : String) (hlen : S.length + items.length ≤ 100000) :
    runMain (runMain S items now1).2 items now2 = ([], (runMain S items now1).2) := by
  have hfull : (items.foldl (cleanStep now1) ([], S)).2.length ≤ 100000 := by
    have := clean_seen_length now1 items ([], S)
    simp at this
    omega
  have htake : (items.foldl (cleanStep now1) ([], S)).2.take 100000 =
      (items.foldl (cleanStep now1) ([], S)).2 :=
    List.take_of_length_le hfull
  have hseen1 : (runMain S items now1).2 = (items.foldl (cleanStep now1) ([], S)).2 := by
    unfold runMain
    simpa using htake
  have hcov : ∀ it ∈ items, it.url = "" ∨ passes_domain it.url = false ∨
      memB it.url (runMain S items now1).2 = true := by
    intro it hm
    by_cases h1 : it.url = ""
    · exact Or.inl h1
    by_cases h2 : passes_domain it.url = true
    · refine Or.inr (Or.inr ?_)
      apply memB_iff.mpr
      rw [hseen1]
      exact clean_coverage now1 h1 h2 items hm ([], S)
    · exact Or.inr (Or.inl (Bool.eq_false_iff.mpr h2))
  have hfold2 : items.foldl (cleanStep now2) ([], (runMain S items now1).2) =
      ([], (runMain S items now1).2) :=
    clean_no_new now2 items _ (by simpa using hcov)
  have hstep : runMain (runMain S items now1).2 items now2 =
      (dedup_sort (items.foldl (cleanStep now2) ([], (runMain S items now1).2)).1,
        (items.foldl (cleanStep now2) ([], (runMain S items now1).2)).2.take 100000) := rfl
  rw [hstep, hfold2]
  have hempty : dedup_sort (([], (runMain S items now1).2) :
      List Item × List String).1 = [] := rfl
  rw [hempty]
  have htk : (([], (runMain S items now1).2) :
      List Item × List String).2.take 100000 = (runMain S items now1).2 := by
    show (runMain S items now1).2.take 100000 = (runMain S items now1).2
    rw [hseen1]
    exact htake
  rw [htk]

/-- Witness for C3 amended at a concrete feed. -/
theorem C3_second_run_empty_witness :
    runMain
        (runMain [] [⟨"Pride event", "https://www.pinknews.co.uk/b",
          some "2024-01-01", "PinkNews", "", "", "PinkNews", ""⟩] "t1").2
        [⟨"Pride event", "https://www.pinknews.co.uk/b",
          some "2024-01-01", "PinkNews", "", "", "PinkNews", ""⟩] "t2" =
      ([], (runMain [] [⟨"Pride event", "https://www.pinknews.co.uk/b",
          some "2024-01-01", "PinkNews", "", "", "PinkNews", ""⟩] "t1").2) :=
  C3_second_run_empty []
    [⟨"Pride event", "https://www.pinknews.co.uk/b",
      some "2024-01-01", "PinkNews", "", "", "PinkNews", ""⟩] "t1" "t2" (by decide)

/-! ## Claim C9 (corrected) -/

/-- Counterexample to C9 as stated: two items whose URLs differ only by a
trailing space both enter the seen state, but dedup_sort keys them by the
stripped URL and keeps only the later item, so the unstripped first URL is
persisted in SeenState without any output item (of this first-ever run)
carrying it. -/
theorem C9_counterexample :
    (memB "https://www.pinknews.co.uk/a"
        (runMain []
          [⟨"a", "https://www.pinknews.co.uk/a", none, "", "", "", "", ""⟩,
           ⟨"b", "https://www.pinknews.co.uk/a ", none, "", "", "", "", ""⟩] "t").2 = true) ∧
      ((runMain []
          [⟨"a", "https://www.pinknews.co.uk/a", none, "", "", "", "", ""⟩,
           ⟨"b", "https://www.pinknews.co.uk/a ", none, "", "", "", "", ""⟩] "t").1.all
        (fun it => !(it.url == "https://www.pinknews.co.uk/a")) = true) := by
  constructor
  · decide
  · decide

/-- C9 amended: every URL in the persisted seen state was either already in
the loaded state or is the URL of an input item that passed the cleaning
gates this run; such an item may still be missing from the output feed
because dedup_sort dedups by stripped URL and truncates to the output cap. -/
theorem C9_seen_superset (S : List String) (items : List Item) (now : String) :
    ∀ u ∈ (runMain S items now).2,
      u ∈ S ∨ ∃ it, it ∈ items ∧ it.url = u ∧ u ≠ "" ∧ passes_domain u = true := by
  intro u hu
  have hu' : u ∈ (items.foldl (cleanStep now) ([], S)).2 := by
    have hr : (runMain S items now).2 =
        (items.foldl (cleanStep now) ([], S)).2.take 100000 := rfl
    rw [hr] at hu
    exact (List.take_sublist _ _).subset hu
  have hinv : ∀ v ∈ (items.foldl (cleanStep now) ([], S)).2,
      v ∈ S ∨ ∃ it, it ∈ items ∧ it.url = v ∧ v ≠ "" ∧ passes_domain v = true := by
    refine @foldl_clean_inv
      (fun st => ∀ v ∈ st.2,
        v ∈ S ∨ ∃ it, it ∈ items ∧ it.url = v ∧ v ≠ "" ∧ passes_domain v = true)
      now items ?_ ([], S) (by intro v hv; exact Or.inl hv)
    intro st x hx hP
    unfold cleanStep
    split_ifs with g1 g2 g3
    · exact hP
    · exact hP
    · exact hP
    · intro v hv
      rcases List.mem_append.mp hv with hv | hv
      · exact hP v hv
      · have hve : v = x.url := by simpa using hv
        right
        refine ⟨x, hx, hve.symm, ?_, ?_⟩
        · rw [hve]
          simpa using g1
        · rw [hve]
          simpa using g2
  exact hinv u hu'

/-- Witness for C9 amended: the persisted URL of a fresh item is accounted
for by that input item. -/
theorem C9_seen_superset_witness :
    "https://www.pinknews.co.uk/c" ∈ (["https://www.pinknews.co.uk/old"] : List String) ∨
      ∃ it, it ∈ ([⟨"c", "https://www.pinknews.co.uk/c", none, "", "", "", "", ""⟩] : List Item) ∧
        it.url = "https://www.pinknews.co.uk/c" ∧
        "https://www.pinknews.co.uk/c" ≠ "" ∧
        passes_domain "https://www.pinknews.co.uk/c" = true :=
  C9_seen_superset ["https://www.pinknews.co.uk/old"]
    [⟨"c", "https://www.pinknews.co.uk/c", none, "", "", "", "", ""⟩] "t"
    "https://www.pinknews.co.uk/c" (by decide)

/-! ## Claim C7 -/

theorem within_lookback_some (s : String) (c : Timestamp) :
    within_lookback (some s) c =
      if (s == "") = true then true
      else
        match parseYMD s with
        | none => true
        | some d => dtGe d c := rfl

/-- C7: the lookback filter keeps every item whose published string is
missing or unparsable, for every cutoff; an item is excluded exactly when
its published string parses to a date whose midnight is before the cutoff. -/
theorem C7_lookback_unparsable_kept (p : Option String) (c : Timestamp) :
    ((p = none ∨ ∃ s, p = some s ∧ parseYMD s = none) →
      within_lookback p c = true) ∧
    (within_lookback p c = false →
      ∃ s d, p = some s ∧ parseYMD s = some d ∧ dtGe d c = false) ∧
    (∀ s d, p = some s → parseYMD s = some d → dtGe d c = false →
      within_lookback p c = false) := by
  refine ⟨?_, ?_, ?_⟩
  · rintro (rfl | ⟨s, rfl, hps⟩)
    · rfl
    · rw [within_lookback_some]
      split_ifs with h1
      · rfl
      · rw [hps]
  · intro hf
    cases p with
    | none => simp [within_lookback] at hf
    | some s =>
      rw [within_lookback_some] at hf
      split_ifs at hf with h1
      cases hp : parseYMD s with
      | none => rw [hp] at hf; simp at hf
      | some d =>
        rw [hp] at hf
        exact ⟨s, d, rfl, hp, hf⟩
  · rintro s d rfl hp hg
    rw [within_lookback_some]
    split_ifs with h1
    · rw [beq_iff_eq.mp h1] at hp
      have h0 : parseYMD "" = none := rfl
      rw [h0] at hp
      exact absurd hp (by simp)
    · rw [hp]
      exact hg

/-- Witness for C7: an unparsable published string is kept at a concrete
cutoff; a parsed but too-old date is excluded at the same cutoff. -/
theorem C7_lookback_unparsable_kept_witness :
    within_lookback (some "yesterday") ⟨⟨2023, 6, 1⟩, 7⟩ = true ∧
      within_lookback (some "2020-01-05") ⟨⟨2023, 6, 1⟩, 7⟩ = false :=
  ⟨(C7_lookback_unparsable_kept (some "yesterday") ⟨⟨2023, 6, 1⟩, 7⟩).1
      (Or.inr ⟨"yesterday", rfl, by decide⟩),
    (C7_lookback_unparsable_kept (some "2020-01-05") ⟨⟨2023, 6, 1⟩, 7⟩).2.2
      "2020-01-05" ⟨2020, 1, 5⟩ rfl (by decide) (by decide)⟩

/-! ## Claim C8 (corrected) -/

/-- Counterexample to C8 as stated: a failing state read is silently
replaced by the empty fallback state and the run succeeds (here with no
fetched items), identical to a run that read an empty state. -/
theorem C8_read_failure_not_fatal_counterexample :
    main_run PResult.err true true ⟨⟨2020, 1, 1⟩, 0⟩ (fun _ => PResult.err)
        PResult.err "t" = Except.ok ([], []) ∧
      main_run PResult.err true true ⟨⟨2020, 1, 1⟩, 0⟩ (fun _ => PResult.err)
          PResult.err "t" =
        main_run (PResult.ok []) true true ⟨⟨2020, 1, 1⟩, 0⟩ (fun _ => PResult.err)
          PResult.err "t" := by
  constructor
  · rfl
  · rfl

/-- C8 amended: a state-read failure never fails the run; it behaves
exactly as an empty loaded state (load_json returns the fallback).  Only a
failed write of the state file or the output file propagates as a fatal
run failure, and when both writes succeed the run returns the cleaned
output and seen state. -/
theorem C8_persistence_semantics (sr : PResult (List String)) (swo owo : Bool)
    (c : Timestamp) (r : String → PResult (List Item))
    (b : PResult (List Cand × List String)) (now : String) :
    (main_run PResult.err swo owo c r b now =
        main_run (PResult.ok []) swo owo c r b now) ∧
    ((swo = false ∨ owo = false) →
        main_run sr swo owo c r b now = Except.error ()) ∧
    (swo = true → owo = true →
        main_run sr swo owo c r b now =
          Except.ok (runMain (load_json sr [])
            ((fetch_pinknews_only c r).1 ++ fetch_bbc_topic_only c b) now)) := by
  refine ⟨rfl, ?_, ?_⟩
  · rintro (rfl | rfl)
    · rfl
    · cases swo
      · rfl
      · rfl
  · rintro rfl rfl
    rfl

/-- Witness for C8 amended: a failed state write aborts the run. -/
theorem C8_persistence_semantics_witness :
    main_run (PResult.ok ["https://www.pinknews.co.uk/x"]) false true
        ⟨⟨2020, 1, 1⟩, 0⟩ (fun _ => PResult.err) PResult.err "t" =
      Except.error () :=
  (C8_persistence_semantics (PResult.ok ["https://www.pinknews.co.uk/x"]) false true
      ⟨⟨2020, 1, 1⟩, 0⟩ (fun _ => PResult.err) PResult.err "t").2.1 (Or.inl rfl)

/-! ## Claim C6 (corrected) -/

/-- Counterexample to C6 as stated: with five planned queries the loop
issues all five fetches, not two; no cap or time budget is consulted. -/
theorem C6_counterexample :
    (queryLoop ⟨⟨2020, 1, 1⟩, 0⟩ ["q1", "q2", "q3", "q4", "q5"]
        (fun _ => PResult.ok [])).2 = 5 ∧
      ¬ (queryLoop ⟨⟨2020, 1, 1⟩, 0⟩ ["q1", "q2", "q3", "q4", "q5"]
        (fun _ => PResult.ok [])).2 = 2 := by
  constructor
  · rfl
  · decide

/-- C6 amended: the runner issues every planned query unconditionally (one
fetch per query, failures skipped), so the fixed plan of tracker.py always
issues exactly 3 queries; no per-run query cap and no wall-clock budget
exist in the code. -/
theorem C6_all_queries_issued (cutoff : Timestamp) (queries : List String)
    (respond : String → PResult (List Item)) :
    (queryLoop cutoff queries respond).2 = queries.length ∧
      (fetch_pinknews_only cutoff respond).2 = 3 := by
  have key : ∀ (qs : List String) (st : List Item × Nat),
      (qs.foldl
        (fun st q =>
          match respond q with
          | .err => (st.1, st.2 + 1)
          | .ok batch =>
            ((batch.take MAX_ITEMS_PER_FEED).foldl (pinkPush cutoff) st.1, st.2 + 1)) st).2
        = st.2 + qs.length := by
    intro qs
    induction qs with
    | nil => intro st; simp
    | cons q rest ih =>
      intro st
      rw [List.foldl_cons]
      cases hq : respond q with
      | err =>
        simp only [hq]
        rw [ih]
        simp [List.length_cons]
        omega
      | ok batch =>
        simp only [hq]
        rw [ih]
        simp [List.length_cons]
        omega
  constructor
  · have h := key queries ([], 0)
    simpa [queryLoop] using h
  · have h := key pinknewsQueries ([], 0)
    simpa [fetch_pinknews_only, queryLoop, pinknewsQueries] using h

/-! ## Claim C2 (code bug in the BBC path) -/

/-- C2 failing input: a BBC JSON-LD candidate whose title has no topic
term still reaches the run's accumulation and the final output feed: the
BBC loop computes has_topic_signal on the lowered title and then discards
the result (the Python body of the conditional is pass), so the topic
filter is enforced only on the PinkNews path. -/
theorem C2_bbc_topic_filter_not_enforced :
    ((runMain []
        (fetch_bbc_topic_only ⟨⟨2020, 1, 1⟩, 0⟩
          (PResult.ok
            ([⟨"https://www.bbc.co.uk/news/uk-100", "Local council sets budget",
               "2024-05-01"⟩], [])))
        "t").1.any
      (fun it => !(has_topic_signal (it.title ++ " " ++ it.summary))
        && !(has_topic_signal (lowerStr it.title)))) = true := by
  decide

/-- The PinkNews path, by contrast, does enforce the topic filter: every
item its batch loop accumulates has a topic signal on title plus summary. -/
theorem pinknews_topic_filter_enforced (cutoff : Timestamp)
    (items : List Item) (it0 : Item)
    (h : ∀ it ∈ items, has_topic_signal (it.title ++ " " ++ it.summary) = true) :
    ∀ it ∈ pinkPush cutoff items it0,
      has_topic_signal (it.title ++ " " ++ it.summary) = true := by
  intro it hm
  unfold pinkPush at hm
  split_ifs at hm with g1 g2 g3
  · exact h it hm
  · exact h it hm
  · exact h it hm
  · rcases List.mem_append.mp hm with hm | hm
    · exact h it hm
    · have he : it = { it0 with
          source := "PinkNews",
          source_url := "https://www.pinknews.co.uk",
          label := "PinkNews" } := by simpa using hm
      rw [he]
      have : has_topic_signal (it0.title ++ " " ++ it0.summary) = true := by
        simpa using g2
      simpa using this

/-! ## Padded date strings: lexicographic order equals calendar order -/

/-- A zero-padded calendar-shaped date string digit{4}-digit{2}-digit{2}
with month between 01 and 12 and day between 01 and 31 (the exact shape
iso_date and date().isoformat() emit). -/
def isPad (s : String) : Bool :=
  match s.toList with
  | [y1, y2, y3, y4, h1, m1, m2, h2, d1, d2] =>
    allDigits [y1, y2, y3, y4, m1, m2, d1, d2] && h1 == '-' && h2 == '-'
      && decide (1 ≤ 10 * (m1.toNat - 48) + (m2.toNat - 48))
      && decide (10 * (m1.toNat - 48) + (m2.toNat - 48) ≤ 12)
      && decide (1 ≤ 10 * (d1.toNat - 48) + (d2.toNat - 48))
      && decide (10 * (d1.toNat - 48) + (d2.toNat - 48) ≤ 31)
  | _ => false

/-- The yyyymmdd number of a date string: its digits read as one numeral,
which orders padded dates chronologically. -/
def dateVal (s : String) : Nat :=
  digitsVal (s.toList.filter Char.isDigit)

/-- Whether an item's published field is either absent or a padded date. -/
def pubOk (it : Item) : Bool :=
  match it.published with
  | none => true
  | some s => isPad s

/-- Pointwise shape agreement: at each position either both characters are
digits, or they are the same character. -/
def charShapeOk (a b : Char) : Prop :=
  (a.isDigit = true ∧ b.isDigit = true) ∨ a = b

theorem digitsVal_from (l : List Char) :
    ∀ n : Nat, l.foldl (fun n c => n * 10 + (c.toNat - 48)) n =
      n * 10 ^ l.length + digitsVal l := by
  induction l with
  | nil => intro n; simp [digitsVal]
  | cons c cs ih =>
    intro n
    have hc : digitsVal (c :: cs) = (c.toNat - 48) * 10 ^ cs.length + digitsVal cs := by
      unfold digitsVal
      rw [List.foldl_cons, ih]
      ring_nf
      rfl
    rw [List.foldl_cons, ih, hc, List.length_cons]
    ring

theorem digitsVal_cons (c : Char) (l : List Char) :
    digitsVal (c :: l) = (c.toNat - 48) * 10 ^ l.length + digitsVal l := by
  unfold digitsVal
  rw [List.foldl_cons, digitsVal_from]
  ring_nf
  rfl

theorem digit_toNat_bounds {c : Char} (h : c.isDigit = true) :
    48 ≤ c.toNat ∧ c.toNat ≤ 57 := by
  simp [Char.isDigit] at h
  exact ⟨h.1, h.2⟩

theorem digitsVal_lt (l : List Char) (h : ∀ c ∈ l, c.isDigit = true) :
    digitsVal l < 10 ^ l.length := by
  induction l with
  | nil => simp [digitsVal]
  | cons c cs ih =>
    rw [digitsVal_cons, List.length_cons]
    have h9 : c.toNat - 48 ≤ 9 := by
      have := digit_toNat_bounds (h c (List.mem_cons_self _ _))
      omega
    have hcs : digitsVal cs < 10 ^ cs.length :=
      ih (fun x hx => h x (List.mem_cons_of_mem _ hx))
    calc (c.toNat - 48) * 10 ^ cs.length + digitsVal cs
        < (c.toNat - 48) * 10 ^ cs.length + 10 ^ cs.length :=
          Nat.add_lt_add_left hcs _
      _ = (c.toNat - 48 + 1) * 10 ^ cs.length := by ring
      _ ≤ 10 * 10 ^ cs.length := Nat.mul_le_mul_right _ (by omega)
      _ = 10 ^ (cs.length + 1) := by ring

theorem shape_filter_length {l1 l2 : List Char} (h : List.Forall₂ charShapeOk l1 l2) :
    (l1.filter Char.isDigit).length = (l2.filter Char.isDigit).length := by
  induction h with
  | nil => rfl
  | cons hab hrest ih =>
    rename_i a b as bs
    rcases hab with ⟨ha, hb⟩ | rfl
    · simp [List.filter_cons, ha, hb]
      exact ih
    · by_cases hd : a.isDigit = true <;> simp [List.filter_cons, hd, ih]

/-- If two character lists agree in shape and the first is not
lexicographically below the second, the digits of the second read as a
numeral are at most the digits of the first. -/
theorem lexNum {l1 l2 : List Char} (hsh : List.Forall₂ charShapeOk l1 l2)
    (hlt : listLtB l1 l2 = false) :
    digitsVal (l2.filter Char.isDigit) ≤ digitsVal (l1.filter Char.isDigit) := by
  induction hsh with
  | nil => simp
  | cons hab hrest ih =>
    rename_i a b as bs
    unfold charShapeOk at hab
    simp only [listLtB] at hlt
    split_ifs at hlt with g1 g2
    · rcases hab with ⟨ha, hb⟩ | heq
      · have hlen : (bs.filter Char.isDigit).length = (as.filter Char.isDigit).length :=
          (shape_filter_length hrest).symm
        have hfb : ∀ c ∈ bs.filter Char.isDigit, c.isDigit = true := by
          intro c hc
          exact (List.mem_filter.mp hc).2
        have hbound : digitsVal (bs.filter Char.isDigit) <
            10 ^ (as.filter Char.isDigit).length := by
          rw [← hlen]
          exact digitsVal_lt _ hfb
        have hba : b.toNat - 48 + 1 ≤ a.toNat - 48 := by
          have hb48 := digit_toNat_bounds hb
          have ha48 := digit_toNat_bounds ha
          omega
        rw [List.filter_cons, List.filter_cons, if_pos ha, if_pos hb,
          digitsVal_cons, digitsVal_cons, hlen]
        have hstep : (b.toNat - 48) * 10 ^ (as.filter Char.isDigit).length +
            digitsVal (bs.filter Char.isDigit) <
            (a.toNat - 48) * 10 ^ (as.filter Char.isDigit).length := by
          calc (b.toNat - 48) * 10 ^ (as.filter Char.isDigit).length +
              digitsVal (bs.filter Char.isDigit)
              < (b.toNat - 48) * 10 ^ (as.filter Char.isDigit).length +
                10 ^ (as.filter Char.isDigit).length := Nat.add_lt_add_left hbound _
            _ = (b.toNat - 48 + 1) * 10 ^ (as.filter Char.isDigit).length := by ring
            _ ≤ (a.toNat - 48) * 10 ^ (as.filter Char.isDigit).length :=
              Nat.mul_le_mul_right _ hba
        exact le_trans (le_of_lt hstep) (Nat.le_add_right _ _)
      · rw [heq] at g2
        exact absurd g2 (by omega)
    · have heq : a = b := char_eq_of_toNat_eq (by omega)
      subst heq
      have hrec := ih hlt
      by_cases hd : a.isDigit = true
      · rw [List.filter_cons, List.filter_cons, if_pos hd, if_pos hd,
          digitsVal_cons, digitsVal_cons, shape_filter_length hrest]
        exact Nat.add_le_add_left hrec _
      · rw [List.filter_cons, List.filter_cons, if_neg hd, if_neg hd]
        exact hrec

theorem isPad_destruct {s : String} (h : isPad s = true) :
    ∃ y1 y2 y3 y4 m1 m2 d1 d2 : Char,
      s.toList = [y1, y2, y3, y4, '-', m1, m2, '-', d1, d2] ∧
      y1.isDigit = true ∧ y2.isDigit = true ∧ y3.isDigit = true ∧ y4.isDigit = true ∧
      m1.isDigit = true ∧ m2.isDigit = true ∧ d1.isDigit = true ∧ d2.isDigit = true ∧
      1 ≤ 10 * (m1.toNat - 48) + (m2.toNat - 48) ∧
      10 * (m1.toNat - 48) + (m2.toNat - 48) ≤ 12 ∧
      1 ≤ 10 * (d1.toNat - 48) + (d2.toNat - 48) := by
  unfold isPad at h
  split at h
  · rename_i y1 y2 y3 y4 h1 m1 m2 h2 d1 d2 heq
    simp only [allDigits, List.all_cons, List.all_nil, Bool.and_eq_true, beq_iff_eq,
      decide_eq_true_eq] at h
    obtain ⟨⟨⟨⟨⟨⟨hdg, hh1⟩, hh2⟩, hm1⟩, hm2⟩, hd1⟩, hd2⟩ := h
    refine ⟨y1, y2, y3, y4, m1, m2, d1, d2, ?_, ?_, ?_, ?_, ?_, ?_, ?_, ?_, ?_, hm1, hm2, hd1⟩
    · rw [heq, hh1, hh2]
    · exact hdg.1
    · exact hdg.2.1
    · exact hdg.2.2.1
    · exact hdg.2.2.2.1
    · exact hdg.2.2.2.2.1
    · exact hdg.2.2.2.2.2.1
    · exact hdg.2.2.2.2.2.2.1
    · exact hdg.2.2.2.2.2.2.2.1
  · simp at h

theorem isPad_ne_empty {s : String} (h : isPad s = true) : (s == "") = false := by
  obtain ⟨y1, y2, y3, y4, m1, m2, d1, d2, hse, _⟩ := isPad_destruct h
  rw [beq_eq_false_iff_ne]
  intro he
  rw [he] at hse
  simp at hse

theorem pad_lex_dateVal {s t : String} (hs : isPad s = true) (ht : isPad t = true)
    (hlt : strLtB s t = false) : dateVal t ≤ dateVal s := by
  obtain ⟨y1, y2, y3, y4, m1, m2, d1, d2, hse, hy1, hy2, hy3, hy4, hm1, hm2, hd1, hd2,
    _, _, _⟩ := isPad_destruct hs
  obtain ⟨Y1, Y2, Y3, Y4, M1, M2, D1, D2, hte, hY1, hY2, hY3, hY4, hM1, hM2, hD1, hD2,
    _, _, _⟩ := isPad_destruct ht
  unfold dateVal
  unfold strLtB at hlt
  rw [hse, hte] at hlt
  rw [hse, hte]
  refine lexNum ?_ hlt
  exact List.Forall₂.cons (Or.inl ⟨hy1, hY1⟩)
    (List.Forall₂.cons (Or.inl ⟨hy2, hY2⟩)
      (List.Forall₂.cons (Or.inl ⟨hy3, hY3⟩)
        (List.Forall₂.cons (Or.inl ⟨hy4, hY4⟩)
          (List.Forall₂.cons (Or.inr rfl)
            (List.Forall₂.cons (Or.inl ⟨hm1, hM1⟩)
              (List.Forall₂.cons (Or.inl ⟨hm2, hM2⟩)
                (List.Forall₂.cons (Or.inr rfl)
                  (List.Forall₂.cons (Or.inl ⟨hd1, hD1⟩)
                    (List.Forall₂.cons (Or.inl ⟨hd2, hD2⟩)
                      List.Forall₂.nil)))))))))

theorem sentinel_lt_pad {s : String} (hs : isPad s = true) :
    strLtB "0000-00-00" s = true := by
  obtain ⟨y1, y2, y3, y4, m1, m2, d1, d2, hse, hy1, hy2, hy3, hy4, hm1, hm2, hd1, hd2,
    hmlo, _, _⟩ := isPad_destruct hs
  cases hq : strLtB "0000-00-00" s with
  | true => rfl
  | false =>
    exfalso
    have hshape : List.Forall₂ charShapeOk ("0000-00-00".toList) s.toList := by
      rw [hse]
      have hz : ('0' : Char).isDigit = true := by decide
      have hlist : ("0000-00-00".toList) =
          ['0', '0', '0', '0', '-', '0', '0', '-', '0', '0'] := by decide
      rw [hlist]
      exact List.Forall₂.cons (Or.inl ⟨hz, hy1⟩)
        (List.Forall₂.cons (Or.inl ⟨hz, hy2⟩)
          (List.Forall₂.cons (Or.inl ⟨hz, hy3⟩)
            (List.Forall₂.cons (Or.inl ⟨hz, hy4⟩)
              (List.Forall₂.cons (Or.inr rfl)
                (List.Forall₂.cons (Or.inl ⟨hz, hm1⟩)
                  (List.Forall₂.cons (Or.inl ⟨hz, hm2⟩)
                    (List.Forall₂.cons (Or.inr rfl)
                      (List.Forall₂.cons (Or.inl ⟨hz, hd1⟩)
                        (List.Forall₂.cons (Or.inl ⟨hz, hd2⟩)
                          List.Forall₂.nil)))))))))
    have hnum := lexNum hshape hq
    have hzero : digitsVal (("0000-00-00".toList).filter Char.isDigit) = 0 := by decide
    rw [hzero] at hnum
    have hy1b := digit_toNat_bounds hy1
    have hy2b := digit_toNat_bounds hy2
    have hy3b := digit_toNat_bounds hy3
    have hy4b := digit_toNat_bounds hy4
    have hm1b := digit_toNat_bounds hm1
    have hm2b := digit_toNat_bounds hm2
    have hd1b := digit_toNat_bounds hd1
    have hd2b := digit_toNat_bounds hd2
    rw [hse] at hnum
    have hfilter : (([y1, y2, y3, y4, '-', m1, m2, '-', d1, d2] : List Char).filter
        Char.isDigit) = [y1, y2, y3, y4, m1, m2, d1, d2] := by
      simp [List.filter_cons, hy1, hy2, hy3, hy4, hm1, hm2, hd1, hd2,
        (by decide : ('-' : Char).isDigit = false)]
    rw [hfilter] at hnum
    simp only [digitsVal, List.foldl_cons, List.foldl_nil] at hnum
    omega

theorem sortKey_some {it : Item} {s : String} (h : it.published = some s)
    (hne : (s == "") = false) : sortKey it = s := by
  unfold sortKey
  rw [h]
  simp [hne]

theorem sortKey_none {it : Item} (h : it.published = none) :
    sortKey it = "0000-00-00" := by
  unfold sortKey
  rw [h]

/-! ## Claim C5 -/

/-- C5: for every input list whose published fields are absent or padded
calendar dates (the only shapes the pipeline produces), dedup_sort yields
at most MAX_ITEMS_TOTAL items, in descending key order (hence descending
by published date: for any two dated entries the later-listed one has the
numerically smaller yyyymmdd value), with every missing-date item after
every dated item; and the function is deterministic. -/
theorem C5_sorted_bounded_deterministic (items : List Item)
    (h : items.all pubOk = true) :
    (dedup_sort items).length ≤ MAX_ITEMS_TOTAL ∧
    (dedup_sort items).Pairwise (fun a b =>
      strLtB (sortKey a) (sortKey b) = false ∧
      (∀ sa sb, a.published = some sa → b.published = some sb →
        dateVal sb ≤ dateVal sa) ∧
      (a.published = none → b.published = none)) ∧
    (∀ ys, items = ys → dedup_sort items = dedup_sort ys) := by
  have hpub : ∀ it ∈ items, pubOk it = true := fun it hm => List.all_eq_true.mp h it hm
  refine ⟨?_, ?_, ?_⟩
  · unfold dedup_sort
    exact List.length_take_le _ _
  · have h1 : (sortDesc ((dictInsertAll [] items).map (fun p => p.2))).Pairwise
        (fun a b => strLtB (sortKey a) (sortKey b) = false) := sortDesc_pairwise _
    have h2 : (dedup_sort items).Pairwise
        (fun a b => strLtB (sortKey a) (sortKey b) = false) :=
      List.Pairwise.sublist (List.take_sublist _ _) h1
    refine h2.imp_of_mem ?_
    intro a b ha hb hbase
    have hpa : pubOk a = true := hpub a (mem_dedup_sort ha)
    have hpb : pubOk b = true := hpub b (mem_dedup_sort hb)
    refine ⟨hbase, ?_, ?_⟩
    · intro sa sb hsa hsb
      have hpada : isPad sa = true := by
        unfold pubOk at hpa
        rw [hsa] at hpa
        exact hpa
      have hpadb : isPad sb = true := by
        unfold pubOk at hpb
        rw [hsb] at hpb
        exact hpb
      rw [sortKey_some hsa (isPad_ne_empty hpada),
        sortKey_some hsb (isPad_ne_empty hpadb)] at hbase
      exact pad_lex_dateVal hpada hpadb hbase
    · intro hnone
      cases hpu : b.published with
      | none => rfl
      | some sb =>
        exfalso
        have hpadb : isPad sb = true := by
          unfold pubOk at hpb
          rw [hpu] at hpb
          exact hpb
        rw [sortKey_none hnone, sortKey_some hpu (isPad_ne_empty hpadb)] at hbase
        rw [sentinel_lt_pad hpadb] at hbase
        exact absurd hbase (by simp)
  · intro ys hys
    rw [hys]

/-- The sort/truncate example of the spec: five items with dates
2020-01-01, 2021-01-01, none, 2022-01-01, none. -/
def c5ExampleItems : List Item :=
  [⟨"a", "https://www.pinknews.co.uk/1", some "2020-01-01", "", "", "", "", ""⟩,
   ⟨"b", "https://www.pinknews.co.uk/2", some "2021-01-01", "", "", "", "", ""⟩,
   ⟨"c", "https://www.pinknews.co.uk/3", none, "", "", "", "", ""⟩,
   ⟨"d", "https://www.pinknews.co.uk/4", some "2022-01-01", "", "", "", "", ""⟩,
   ⟨"e", "https://www.pinknews.co.uk/5", none, "", "", "", "", ""⟩]

/-- Witness for C5 at the spec's five-item example. -/
theorem C5_sorted_bounded_deterministic_witness :
    (dedup_sort c5ExampleItems).length ≤ MAX_ITEMS_TOTAL ∧
    (dedup_sort c5ExampleItems).Pairwise (fun a b =>
      strLtB (sortKey a) (sortKey b) = false ∧
      (∀ sa sb, a.published = some sa → b.published = some sb →
        dateVal sb ≤ dateVal sa) ∧
      (a.published = none → b.published = none)) ∧
    (∀ ys, c5ExampleItems = ys → dedup_sort c5ExampleItems = dedup_sort ys) :=
  C5_sorted_bounded_deterministic c5ExampleItems (by decide)
